import Mathlib

/-!
Verification development for the godradis client library.

The definitions below are a shallow embedding of the repository's Go source:

* `OrderedMap` models `github.com/iancoleman/orderedmap.OrderedMap` as the
  repository uses it (string keys, string values): a `keys` slice recording
  insertion order plus a backing key/value association (`values`, modelling
  the Go map as an association list with unique keys).
* Entity structures (`Project`, `Node`, `Evidence`, `Note`, ...) mirror the
  structs of `godradis.go`, `node.go`, `evidence.go`, `note.go`, `team.go`.
  Go pointers (`*Node`, `*Project`) are modelled as `Option Addr`, where an
  `Addr` is an abstract heap address; `none` models a nil pointer.
* Operations are translated function by function; HTTP interaction is
  abstracted by an `HttpOutcome` value describing the transport result,
  the response status code and the decoded body.
-/

namespace Godradis

/-- Abstract heap address used to model Go pointers and pointer identity. -/
abbrev Addr := Nat

/-- Lookup in the association list modelling the backing Go map `values`. -/
def lookupA : List (String × String) → String → Option String
  | [], _ => none
  | (k, v) :: rest, q => if k = q then some v else lookupA rest q

/-- Update/insert in the association list modelling the backing Go map:
updates the value in place when the key exists, otherwise appends. -/
def setA : List (String × String) → String → String → List (String × String)
  | [], k, v => [(k, v)]
  | (k0, v0) :: rest, k, v =>
    if k0 = k then (k0, v) :: rest else (k0, v0) :: setA rest k v

/-- Model of `orderedmap.OrderedMap`: the `keys` slice (iteration order) and
the backing map (`values`). -/
structure OrderedMap where
  keys : List String
  values : List (String × String)
deriving DecidableEq

/-- `orderedmap.New()`. -/
def OrderedMap.empty : OrderedMap := ⟨[], []⟩

/-- `OrderedMap.Get`: reads the backing map, reporting presence. -/
def OrderedMap.Get (m : OrderedMap) (k : String) : Option String :=
  lookupA m.values k

/-- `OrderedMap.Set`: appends the key to `keys` when it is not yet in the
backing map, then writes the value into the backing map. -/
def OrderedMap.Set (m : OrderedMap) (k v : String) : OrderedMap :=
  { keys := if (lookupA m.values k).isSome then m.keys else m.keys ++ [k]
    values := setA m.values k v }

/-- Well-formedness of an ordered map: the backing map holds exactly the
keys of the `keys` slice, in the same order, and keys are unique.  Maps
built from `empty` by `Set` satisfy this. -/
def OrderedMap.WellFormed (m : OrderedMap) : Prop :=
  m.values.map Prod.fst = m.keys ∧ m.keys.Nodup

instance (m : OrderedMap) : Decidable m.WellFormed := by
  unfold OrderedMap.WellFormed; infer_instance

/-- Rendering of `fmt.Sprintf("%v", v)` for the interface value returned by
`Get`: the string itself when present, Go's nil rendering otherwise. -/
def fmtVal : Option String → String
  | some v => v
  | none => "<nil>"

/-- `parseOrderedMapFields` (godradis.go): folds over the key iteration
order, appending one `#[key]#\r\nvalue\r\n\r\n` block per key. -/
def parseOrderedMapFields (fields : OrderedMap) : String :=
  fields.keys.foldl
    (fun text k => text ++ ("#[" ++ k ++ "]#\r\n" ++ fmtVal (fields.Get k) ++ "\r\n\r\n"))
    ""

/-- Specification-side rendering: the concatenation, pair by pair, of the
block `#[key]#\r\nvalue\r\n\r\n` for each key/value pair. -/
def blocksConcat : List (String × String) → String
  | [] => ""
  | (k, v) :: rest => "#[" ++ k ++ "]#\r\n" ++ v ++ "\r\n\r\n" ++ blocksConcat rest

theorem string_append_assoc (a b c : String) : a ++ b ++ c = a ++ (b ++ c) := by
  rcases a with ⟨a⟩; rcases b with ⟨b⟩; rcases c with ⟨c⟩
  show String.mk (a ++ b ++ c) = String.mk (a ++ (b ++ c))
  rw [List.append_assoc]

theorem string_append_empty (a : String) : a ++ "" = a := by
  rcases a with ⟨a⟩
  show String.mk (a ++ []) = String.mk a
  rw [List.append_nil]

theorem string_empty_append (a : String) : "" ++ a = a := rfl

/-- Blocks generated by walking a key list against a fixed backing map. -/
def blocksOfKeys (vs : List (String × String)) : List String → String
  | [] => ""
  | k :: ks => "#[" ++ k ++ "]#\r\n" ++ fmtVal (lookupA vs k) ++ "\r\n\r\n" ++ blocksOfKeys vs ks

theorem foldl_blocks (vs : List (String × String)) (ks : List String) :
    ∀ acc : String,
      ks.foldl (fun text k => text ++ ("#[" ++ k ++ "]#\r\n" ++ fmtVal (lookupA vs k) ++ "\r\n\r\n")) acc
        = acc ++ blocksOfKeys vs ks := by
  induction ks with
  | nil => intro acc; simp [blocksOfKeys, string_append_empty]
  | cons k ks ih =>
    intro acc
    simp only [List.foldl_cons, blocksOfKeys, ih]
    rw [string_append_assoc]

theorem blocksOfKeys_congr (vs1 vs2 : List (String × String)) (ks : List String)
    (h : ∀ k ∈ ks, lookupA vs1 k = lookupA vs2 k) :
    blocksOfKeys vs1 ks = blocksOfKeys vs2 ks := by
  induction ks with
  | nil => rfl
  | cons k ks ih =>
    simp only [blocksOfKeys]
    rw [h k (List.mem_cons_self _ _), ih (fun q hq => h q (List.mem_cons_of_mem _ hq))]

theorem lookupA_eq_of_ne (k : String) (v : String) (rest : List (String × String))
    (q : String) (h : q ≠ k) : lookupA ((k, v) :: rest) q = lookupA rest q := by
  simp only [lookupA]
  rw [if_neg (fun hkq : k = q => h hkq.symm)]

theorem blocksOfKeys_self (vs : List (String × String))
    (h : (vs.map Prod.fst).Nodup) :
    blocksOfKeys vs (vs.map Prod.fst) = blocksConcat vs := by
  induction vs with
  | nil => rfl
  | cons p rest ih =>
    rcases p with ⟨k, v⟩
    simp only [List.map_cons, List.nodup_cons] at h
    simp only [List.map_cons, blocksOfKeys, blocksConcat]
    have hk : lookupA ((k, v) :: rest) k = some v := by simp [lookupA]
    rw [hk]
    have hcongr : blocksOfKeys ((k, v) :: rest) (rest.map Prod.fst)
        = blocksOfKeys rest (rest.map Prod.fst) := by
      apply blocksOfKeys_congr
      intro q hq
      exact lookupA_eq_of_ne k v rest q (fun hqk => h.1 (hqk ▸ hq))
    rw [hcongr, ih h.2]
    simp [fmtVal, string_append_assoc]

/-- The example ordered map from the specification: keys
`["Port","Details"]` with values `["443/tcp","Lorem ipsum"]`. -/
def exampleFields : OrderedMap :=
  (OrderedMap.empty.Set "Port" "443/tcp").Set "Details" "Lorem ipsum"

/-- C4: `parseOrderedMapFields` renders exactly the concatenation, in the
map's iteration order, of the block `#[key]#\r\nvalue\r\n\r\n` for every
key/value pair (values rendered verbatim, no escaping); the empty map
renders the empty string, and the `Port`/`Details` example renders the
exact specified string. -/
theorem parseOrderedMapFields_renders_blocks :
    (∀ m : OrderedMap, m.WellFormed → parseOrderedMapFields m = blocksConcat m.values)
    ∧ parseOrderedMapFields OrderedMap.empty = ""
    ∧ parseOrderedMapFields exampleFields
        = "#[Port]#\r\n443/tcp\r\n\r\n#[Details]#\r\nLorem ipsum\r\n\r\n" := by
  refine ⟨?_, rfl, by decide⟩
  intro m hm
  unfold parseOrderedMapFields
  have h1 : ∀ k, m.Get k = lookupA m.values k := fun _ => rfl
  simp only [h1]
  rw [foldl_blocks, string_empty_append, ← hm.1, blocksOfKeys_self]
  rw [hm.1]; exact hm.2

/-- Witness for `parseOrderedMapFields_renders_blocks` at the concrete
example map, discharging the well-formedness hypothesis. -/
theorem parseOrderedMapFields_renders_blocks_witness :
    parseOrderedMapFields exampleFields = blocksConcat exampleFields.values :=
  parseOrderedMapFields_renders_blocks.1 exampleFields (by decide)

/-! ## Entity structures (godradis.go, node.go, evidence.go, note.go, team.go) -/

/-- `Client` (godradis.go). -/
structure Client where
  id : Int
  name : String
deriving DecidableEq

/-- `Author` (godradis.go). -/
structure Author where
  email : String
deriving DecidableEq

/-- `Owner` (godradis.go). -/
structure Owner where
  email : String
deriving DecidableEq

/-- `Project` (godradis.go). -/
structure Project where
  id : Int
  name : String
  client : Client
  createdAt : String
  updatedAt : String
  authors : List Author
  owners : List Owner
deriving DecidableEq

/-- The Go zero value `Project{}`. -/
def Project.zero : Project := ⟨0, "", ⟨0, ""⟩, "", "", [], []⟩

/-- `EvidenceIssue` (evidence.go). -/
structure EvidenceIssue where
  id : Int
  title : String
  url : String
deriving DecidableEq

/-- `Evidence` (evidence.go); the `Node` back-reference pointer is an
`Option Addr` (`none` models nil). -/
structure Evidence where
  id : Int
  content : String
  fields : OrderedMap
  issue : EvidenceIssue
  node : Option Addr
deriving DecidableEq

/-- The Go zero value `Evidence{}`. -/
def Evidence.zero : Evidence := ⟨0, "", ⟨[], []⟩, ⟨0, "", ""⟩, none⟩

/-- `Note` (note.go); the `Node` back-reference pointer is an
`Option Addr` (`none` models nil). -/
structure Note where
  id : Int
  categoryId : Int
  title : String
  fields : OrderedMap
  text : String
  node : Option Addr
deriving DecidableEq

/-- The Go zero value `Note{}`. -/
def Note.zero : Note := ⟨0, 0, "", ⟨[], []⟩, "", none⟩

/-- `Node` (node.go); the `Project` back-reference pointer is an
`Option Addr` (`none` models nil). -/
structure Node where
  id : Int
  label : String
  typeId : Int
  parentId : Int
  position : Int
  createdAt : String
  updatedAt : String
  evidence : List Evidence
  notes : List Note
  project : Option Addr
deriving DecidableEq

/-- The Go zero value `Node{}`. -/
def Node.zero : Node := ⟨0, "", 0, 0, 0, "", "", [], [], none⟩

/-- `Issue` (issue entity struct). -/
structure Issue where
  id : Int
  title : String
  fields : OrderedMap
  text : String
  createdAt : String
  updatedAt : String
  project : Option Addr
deriving DecidableEq

/-- The Go zero value `Issue{}`. -/
def Issue.zero : Issue := ⟨0, "", ⟨[], []⟩, "", "", "", none⟩

/-- `TeamProject` (team.go). -/
structure TeamProject where
  id : Int
  name : String
deriving DecidableEq

/-- `Team` (team.go). -/
structure Team where
  id : Int
  name : String
  teamSince : String
  createdAt : String
  updatedAt : String
  projects : List TeamProject
deriving DecidableEq

/-- The Go zero value `Team{}`. -/
def Team.zero : Team := ⟨0, "", "", "", "", []⟩

/-- `IssueLib` (issuelib.go). -/
structure IssueLib where
  id : Int
  title : String
  fields : OrderedMap
  state : Int
  content : String
  createdAt : String
  updatedAt : String
deriving DecidableEq

/-! ## Typed field accessors (evidence.go, note.go, issuelib part) -/

/-- Common body of `Evidence.GetField` / `Note.GetField` / `IssueLib.GetField`
(the three methods are textually identical over their `Fields` map):
`value, ok := Fields.Get(key); if !ok return "", error; return value, nil`.
The Go `(value, error)` pair is modelled as `String × Option String`. -/
def getFieldImpl (fields : OrderedMap) (key : String) : String × Option String :=
  match fields.Get key with
  | none => ("", some ("field not found: " ++ key))
  | some value => (value, none)

/-- `Evidence.GetField` (evidence.go). -/
def Evidence.GetField (e : Evidence) (key : String) : String × Option String :=
  getFieldImpl e.fields key

/-- `Note.GetField` (note.go). -/
def Note.GetField (n : Note) (key : String) : String × Option String :=
  getFieldImpl n.fields key

/-- `Evidence.SetField` (evidence.go). -/
def Evidence.SetField (e : Evidence) (key value : String) : Evidence :=
  { e with fields := e.fields.Set key value }

/-- `Note.SetField` (note.go). -/
def Note.SetField (n : Note) (key value : String) : Note :=
  { n with fields := n.fields.Set key value }

/-! ## Node lookup and mutation operations (node.go) -/

/-- Loop body of `Node.GetEvidenceByField`: skip elements whose map lacks
the key (`continue`), collect those whose value equals the query. -/
def getEvidenceByFieldLoop (key value : String) : List Evidence → List Evidence
  | [] => []
  | e :: rest =>
    match e.fields.Get key with
    | none => getEvidenceByFieldLoop key value rest
    | some val =>
      if val = value then e :: getEvidenceByFieldLoop key value rest
      else getEvidenceByFieldLoop key value rest

/-- `Node.GetEvidenceByField` (node.go). -/
def Node.GetEvidenceByField (n : Node) (key value : String) : List Evidence :=
  getEvidenceByFieldLoop key value n.evidence

/-- `Node.addEvidence` (node.go): `append`. -/
def Node.addEvidence (n : Node) (e : Evidence) : Node :=
  { n with evidence := n.evidence ++ [e] }

/-- `Node.addNote` (node.go): `append`. -/
def Node.addNote (n : Node) (note : Note) : Node :=
  { n with notes := n.notes ++ [note] }

/-- Effect of `copy(s[i:], s[i+1:])` on the backing array of a Go slice:
elements after position `i` shift one place left, the last element stays in
place, and the slice length does not change (the source never reslices). -/
def shiftAt (l : List α) (i : Nat) : List α :=
  l.take i ++ l.drop (i + 1) ++ l.drop (l.length - 1)

/-- The `for i, x := range` loop of `Node.deleteEvidence`/`Node.deleteNote`:
the index runs over the length captured at loop entry, each step reads the
current backing array, and a matching id triggers the in-place shift. -/
def deleteLoop (tid : Int) (getId : α → Int) : Nat → Nat → List α → List α
  | 0, _, l => l
  | fuel + 1, i, l =>
    deleteLoop tid getId fuel (i + 1)
      (match l.get? i with
       | some x => if getId x = tid then shiftAt l i else l
       | none => l)

/-- `Node.deleteEvidence` (node.go). -/
def Node.deleteEvidence (n : Node) (e : Evidence) : Node :=
  { n with evidence := deleteLoop e.id (fun ev => ev.id) n.evidence.length 0 n.evidence }

/-- `Node.deleteNote` (node.go). -/
def Node.deleteNote (n : Node) (note : Note) : Node :=
  { n with notes := deleteLoop note.id (fun nt => nt.id) n.notes.length 0 n.notes }

/-- `Node.setEvidenceNodeReference(s)` (node.go): every evidence's `Node`
pointer is set to the receiver node, whose address is `self`. -/
def Node.setEvidenceNodeReferences (n : Node) (self : Addr) : Node :=
  { n with evidence := n.evidence.map (fun e => { e with node := some self }) }

/-- `Node.setNoteNodeReference(s)` (node.go). -/
def Node.setNoteNodeReferences (n : Node) (self : Addr) : Node :=
  { n with notes := n.notes.map (fun nt => { nt with node := some self }) }

/-! ## C7: by-field-value lookup -/

/-- C7: `GetEvidenceByField` returns exactly the evidence entries, in list
order, whose ordered field map holds the key with a value equal
(case-sensitively) to the query; entries lacking the key are skipped
without an error. -/
theorem getEvidenceByField_eq_filter :
    ∀ (n : Node) (key value : String),
      n.GetEvidenceByField key value
        = n.evidence.filter (fun e => decide (e.fields.Get key = some value)) := by
  intro n key value
  show getEvidenceByFieldLoop key value n.evidence = _
  induction n.evidence with
  | nil => rfl
  | cons e rest ih =>
    simp only [getEvidenceByFieldLoop, List.filter_cons]
    cases h : e.fields.Get key with
    | none => simp [h, ih]
    | some val =>
      by_cases hv : val = value
      · simp [h, hv, ih]
      · simp [h, hv, ih, Option.some_inj]

/-! ## C9: typed field accessor -/

/-- C9: `GetField` on Evidence and Note returns the stored value with a nil
error exactly when the key is present, and the empty string together with a
`field not found` error naming the missing key when it is absent. -/
theorem getField_present_absent :
    ∀ (e : Evidence) (nt : Note) (key : String),
      (∀ v, e.fields.Get key = some v → e.GetField key = (v, none))
      ∧ (e.fields.Get key = none
          → e.GetField key = ("", some ("field not found: " ++ key)))
      ∧ (∀ v, nt.fields.Get key = some v → nt.GetField key = (v, none))
      ∧ (nt.fields.Get key = none
          → nt.GetField key = ("", some ("field not found: " ++ key))) := by
  intro e nt key
  refine ⟨?_, ?_, ?_, ?_⟩ <;>
    first
    | (intro v h; simp [Evidence.GetField, Note.GetField, getFieldImpl, h])
    | (intro h; simp [Evidence.GetField, Note.GetField, getFieldImpl, h])

/-- Concrete evidence used by the `getField_present_absent` witness. -/
def ev9 : Evidence :=
  { Evidence.zero with fields := OrderedMap.empty.Set "Port" "443/tcp" }

/-- Concrete note used by the `getField_present_absent` witness. -/
def nt9 : Note :=
  { Note.zero with fields := OrderedMap.empty.Set "Title" "Info" }

/-- Witness for `getField_present_absent`: a present key returns its value,
an absent key returns the error naming it. -/
theorem getField_present_absent_witness :
    ev9.GetField "Port" = ("443/tcp", none)
    ∧ nt9.GetField "Missing" = ("", some ("field not found: " ++ "Missing")) :=
  ⟨(getField_present_absent ev9 nt9 "Port").1 "443/tcp" (by decide),
   (getField_present_absent ev9 nt9 "Missing").2.2.2 (by decide)⟩

/-! ## C6: remove-by-id with an absent id is a silent no-op -/

theorem deleteLoop_no_match (tid : Int) (getId : α → Int)
    (l : List α) (h : ∀ x ∈ l, getId x ≠ tid) :
    ∀ (fuel i : Nat), deleteLoop tid getId fuel i l = l := by
  intro fuel
  induction fuel with
  | zero => intro i; rfl
  | succ fuel ih =>
    intro i
    simp only [deleteLoop]
    cases hg : l.get? i with
    | none => exact ih (i + 1)
    | some x =>
      show deleteLoop tid getId fuel (i + 1) (if getId x = tid then shiftAt l i else l) = l
      rw [if_neg (h x (List.get?_mem hg))]
      exact ih (i + 1)

/-- C6: when no element of the node's Evidence (resp. Notes) list carries
the target id, `deleteEvidence` (resp. `deleteNote`) leaves the node exactly
unchanged; the methods return nothing, so no error can be signalled. -/
theorem delete_missing_id_is_noop :
    ∀ (n : Node) (e : Evidence) (nt : Note),
      (∀ x ∈ n.evidence, x.id ≠ e.id) →
      (∀ x ∈ n.notes, x.id ≠ nt.id) →
      n.deleteEvidence e = n ∧ n.deleteNote nt = n := by
  intro n e nt he hn
  constructor
  · show { n with evidence := deleteLoop e.id _ n.evidence.length 0 n.evidence } = n
    rw [deleteLoop_no_match e.id _ n.evidence he]
  · show { n with notes := deleteLoop nt.id _ n.notes.length 0 n.notes } = n
    rw [deleteLoop_no_match nt.id _ n.notes hn]

/-- Concrete node used by the C6 witness and the C1 evaluation: evidence
ids `[1,2,3]`, note ids `[1,2,3]`. -/
def node6 : Node :=
  { Node.zero with
      evidence := [{ Evidence.zero with id := 1 }, { Evidence.zero with id := 2 },
                   { Evidence.zero with id := 3 }]
      notes := [{ Note.zero with id := 1 }, { Note.zero with id := 2 },
                { Note.zero with id := 3 }] }

/-- Witness for `delete_missing_id_is_noop`: deleting id 9, absent from
both lists, changes nothing. -/
theorem delete_missing_id_is_noop_witness :
    node6.deleteEvidence { Evidence.zero with id := 9 } = node6
    ∧ node6.deleteNote { Note.zero with id := 9 } = node6 :=
  delete_missing_id_is_noop node6 { Evidence.zero with id := 9 }
    { Note.zero with id := 9 } (by decide) (by decide)

/-! ## C1: remove-by-id of a present id — source does not truncate -/

/-- C1 evaluation: on the list with ids `[1,2,3]`, removing id `2` yields
ids `[1,3,3]` and leaves the length at `3` — the `copy` shifts later
elements left but the slice is never truncated, so the list is NOT one
element shorter and the last element is duplicated (same for notes). -/
theorem deleteEvidence_present_id_keeps_length :
    ((node6.deleteEvidence { Evidence.zero with id := 2 }).evidence.map (fun e => e.id)
        = [1, 3, 3])
    ∧ (node6.deleteEvidence { Evidence.zero with id := 2 }).evidence.length = 3
    ∧ ((node6.deleteNote { Note.zero with id := 2 }).notes.map (fun nt => nt.id)
        = [1, 3, 3])
    ∧ (node6.deleteNote { Note.zero with id := 2 }).notes.length = 3 := by
  decide

/-! ## C2: back-reference wiring after fetch/create (godradis.go) -/

/-- Epilogue shared by `GetNodeById` (lines 669-671) and the loop body of
`GetAllNodes` (lines 632-636): set the `Project` pointer to the caller's
project and wire the Evidence and Note back-references to the node itself
(`self` is the node's address). -/
def wireFetchedNode (project self : Addr) (decoded : Node) : Node :=
  (({ decoded with project := some project }).setEvidenceNodeReferences self).setNoteNodeReferences
    self

/-- `GetAllNodes` post-processing: each decoded node, living at its own
address, gets the full wiring pass. -/
def getAllNodesWire (project : Addr) (addrs : List Addr) (decoded : List Node) : List Node :=
  List.zipWith (fun a n => wireFetchedNode project a n) addrs decoded

/-- `CreateNode` epilogue (godradis.go lines 773-774): sets the `Project`
pointer and wires Evidence back-references, but runs no
`setNoteNodeReferences` pass. -/
def createNodeWire (project self : Addr) (decoded : Node) : Node :=
  ({ decoded with project := some project }).setEvidenceNodeReferences self

/-- Decoded node used for the C2 counterexample: the response carries one
Note (back-references are nil after decoding). -/
def c2Decoded : Node := { Node.zero with notes := [Note.zero] }

/-- C2 counterexample: after `CreateNode`'s wiring (project address 0, node
address 1) on a decoded node carrying one Note, that Note's back-reference
is still nil — not a pointer to the node — because `CreateNode` never calls
`setNoteNodeReferences`. -/
theorem createNode_leaves_note_backrefs_unwired :
    (createNodeWire 0 1 c2Decoded).notes.map (fun nt => nt.node) = [none]
    ∧ ¬ (∀ nt ∈ (createNodeWire 0 1 c2Decoded).notes, nt.node = some 1) := by
  decide

/-- C2 (amended): `GetNodeById` and `GetAllNodes` establish both invariants
on every returned node (the `Project` pointer is the caller's project, and
every Evidence and Note points back to the node itself); `CreateNode`
establishes the `Project` and Evidence invariants but leaves the decoded
Notes untouched, so its Note invariant holds only when the response carries
no Notes. -/
theorem node_wiring_invariants :
    ∀ (p self : Addr) (d : Node) (addrs : List Addr) (ds : List Node) (i : Nat),
      (wireFetchedNode p self d).project = some p
      ∧ (∀ e ∈ (wireFetchedNode p self d).evidence, e.node = some self)
      ∧ (∀ nt ∈ (wireFetchedNode p self d).notes, nt.node = some self)
      ∧ (i < (getAllNodesWire p addrs ds).length →
          ((getAllNodesWire p addrs ds).getD i Node.zero).project = some p
          ∧ (∀ e ∈ ((getAllNodesWire p addrs ds).getD i Node.zero).evidence,
              e.node = some (addrs.getD i 0))
          ∧ (∀ nt ∈ ((getAllNodesWire p addrs ds).getD i Node.zero).notes,
              nt.node = some (addrs.getD i 0)))
      ∧ (createNodeWire p self d).project = some p
      ∧ (∀ e ∈ (createNodeWire p self d).evidence, e.node = some self)
      ∧ (createNodeWire p self d).notes = d.notes
      ∧ (d.notes = [] → ∀ nt ∈ (createNodeWire p self d).notes, nt.node = some self) := by
  intro p self d addrs ds i
  have hsingle : ∀ (q a : Addr) (dn : Node),
      (wireFetchedNode q a dn).project = some q
      ∧ (∀ e ∈ (wireFetchedNode q a dn).evidence, e.node = some a)
      ∧ (∀ nt ∈ (wireFetchedNode q a dn).notes, nt.node = some a) := by
    intro q a dn
    refine ⟨rfl, ?_, ?_⟩ <;>
      simp [wireFetchedNode, Node.setEvidenceNodeReferences, Node.setNoteNodeReferences]
  refine ⟨(hsingle p self d).1, (hsingle p self d).2.1, (hsingle p self d).2.2, ?_, rfl, ?_, rfl, ?_⟩
  · intro hi
    have hlen := hi
    rw [getAllNodesWire, List.length_zipWith] at hlen
    have hia : i < addrs.length := lt_of_lt_of_le hlen (min_le_left _ _)
    have hid : i < ds.length := lt_of_lt_of_le hlen (min_le_right _ _)
    have hgetD : (getAllNodesWire p addrs ds).getD i Node.zero
        = wireFetchedNode p (addrs.getD i 0) (ds.getD i Node.zero) := by
      rw [List.getD_eq_getElem _ _ hi, List.getD_eq_getElem _ _ hia,
        List.getD_eq_getElem _ _ hid]
      exact List.getElem_zipWith
    rw [hgetD]
    exact hsingle p (addrs.getD i 0) (ds.getD i Node.zero)
  · simp [createNodeWire, Node.setEvidenceNodeReferences]
  · intro hempty
    simp [createNodeWire, Node.setEvidenceNodeReferences, hempty]

/-- Decoded node used by the `node_wiring_invariants` witness. -/
def c2Fetched : Node :=
  { Node.zero with evidence := [Evidence.zero], notes := [Note.zero] }

/-- Witness for `node_wiring_invariants`: the list-fetch conjunct at index
0 of a one-node list, and the create conjunct for an empty-Notes response. -/
theorem node_wiring_invariants_witness :
    (((getAllNodesWire 0 [2] [c2Fetched]).getD 0 Node.zero).project = some 0
      ∧ (∀ e ∈ ((getAllNodesWire 0 [2] [c2Fetched]).getD 0 Node.zero).evidence,
          e.node = some ((List.getD [2] 0 0 : Addr)))
      ∧ (∀ nt ∈ ((getAllNodesWire 0 [2] [c2Fetched]).getD 0 Node.zero).notes,
          nt.node = some ((List.getD [2] 0 0 : Addr))))
    ∧ (∀ nt ∈ (createNodeWire 0 1 Node.zero).notes, nt.node = some 1) :=
  ⟨(node_wiring_invariants 0 1 c2Fetched [2] [c2Fetched] 0).2.2.2.1 (by decide),
   (node_wiring_invariants 0 1 Node.zero [2] [c2Fetched] 0).2.2.2.2.2.2.2 rfl⟩

/-! ## C3: create operations mutate the node only after confirmed success -/

/-- Abstraction of one HTTP round trip: either the transport fails, or a
response arrives with a status code and a decoded body (decoding failure
covers both the body read error and the unmarshal error of the source). -/
inductive HttpOutcome (α : Type) where
  | transportErr (msg : String)
  | response (status : Nat) (decoded : Except String α)

/-- `http.StatusOK`. -/
def statusOK : Nat := 200

/-- `http.StatusCreated`. -/
def statusCreated : Nat := 201

/-- `CreateEvidenceFromText` (godradis.go lines 1214-1249), restricted to
its effect on the local graph: on transport failure, non-201 status or
decode failure the node is untouched and an error is returned; on success
the new evidence gets its `Node` pointer set to the parent node (`self`)
and is appended via `addEvidence`. -/
def createEvidenceFromText (n : Node) (self : Addr) (outcome : HttpOutcome Evidence) :
    Node × Evidence × Option String :=
  match outcome with
  | .transportErr msg => (n, Evidence.zero, some msg)
  | .response status decoded =>
    if status ≠ statusCreated then (n, Evidence.zero, some "could not create evidence")
    else
      match decoded with
      | .error msg => (n, Evidence.zero, some msg)
      | .ok newEvidence =>
        let wired := { newEvidence with node := some self }
        (n.addEvidence wired, wired, none)

/-- `CreateNoteFromText` (godradis.go lines 1497-1539), restricted to its
effect on the local graph (`categoryId` only shapes the request body). -/
def createNoteFromText (n : Node) (self : Addr) (_categoryId : Option Int)
    (outcome : HttpOutcome Note) : Node × Note × Option String :=
  match outcome with
  | .transportErr msg => (n, Note.zero, some msg)
  | .response status decoded =>
    if status ≠ statusCreated then (n, Note.zero, some "could not create note")
    else
      match decoded with
      | .error msg => (n, Note.zero, some msg)
      | .ok newNote =>
        let wired := { newNote with node := some self }
        (n.addNote wired, wired, none)

/-- C3: every failing outcome (transport failure, status other than 201
Created, decode failure) of `CreateEvidenceFromText`/`CreateNoteFromText`
returns an error and leaves the parent node — both its Evidence and its
Notes lists — exactly unchanged; only a confirmed 201 response with a
decoded body appends, and it appends the wired element at the end of the
list, keeping the existing elements in order. -/
theorem create_failure_leaves_node_unchanged :
    ∀ (n : Node) (self : Addr) (msg : String) (status : Nat)
      (dec : Except String Evidence) (decN : Except String Note)
      (e : Evidence) (nt : Note) (cid : Option Int),
      createEvidenceFromText n self (.transportErr msg) = (n, Evidence.zero, some msg)
      ∧ (status ≠ statusCreated →
          createEvidenceFromText n self (.response status dec)
            = (n, Evidence.zero, some "could not create evidence"))
      ∧ createEvidenceFromText n self (.response statusCreated (.error msg))
          = (n, Evidence.zero, some msg)
      ∧ createEvidenceFromText n self (.response statusCreated (.ok e))
          = ({ n with evidence := n.evidence ++ [{ e with node := some self }] },
             { e with node := some self }, none)
      ∧ createNoteFromText n self cid (.transportErr msg) = (n, Note.zero, some msg)
      ∧ (status ≠ statusCreated →
          createNoteFromText n self cid (.response status decN)
            = (n, Note.zero, some "could not create note"))
      ∧ createNoteFromText n self cid (.response statusCreated (.error msg))
          = (n, Note.zero, some msg)
      ∧ createNoteFromText n self cid (.response statusCreated (.ok nt))
          = ({ n with notes := n.notes ++ [{ nt with node := some self }] },
             { nt with node := some self }, none) := by
  intro n self msg status dec decN e nt cid
  refine ⟨rfl, ?_, ?_, ?_, rfl, ?_, ?_, ?_⟩
  · intro h; simp [createEvidenceFromText, h]
  · simp [createEvidenceFromText]
  · simp [createEvidenceFromText, Node.addEvidence]
  · intro h; simp [createNoteFromText, h]
  · simp [createNoteFromText]
  · simp [createNoteFromText, Node.addNote]

/-- Witness for `create_failure_leaves_node_unchanged`: a 500 response
leaves the concrete node `node6` untouched for both create operations. -/
theorem create_failure_leaves_node_unchanged_witness :
    createEvidenceFromText node6 1 (.response 500 (.ok Evidence.zero))
      = (node6, Evidence.zero, some "could not create evidence")
    ∧ createNoteFromText node6 1 none (.response 500 (.ok Note.zero))
      = (node6, Note.zero, some "could not create note") :=
  ⟨(create_failure_leaves_node_unchanged node6 1 "" 500 (.ok Evidence.zero)
      (.ok Note.zero) Evidence.zero Note.zero none).2.1 (by decide),
   (create_failure_leaves_node_unchanged node6 1 "" 500 (.ok Evidence.zero)
      (.ok Note.zero) Evidence.zero Note.zero none).2.2.2.2.2.1 (by decide)⟩

/-! ## C5: by-name/by-label/by-title single-match lookups (godradis.go) -/

/-- Scan loop of `GetProjectByName` over the fetched project list:
case-insensitive comparison, first match returned, otherwise the zero value
and an error naming the query. -/
def getProjectByNameScan : List Project → String → Project × Option String
  | [], name => (Project.zero, some ("Could not find project " ++ name))
  | p :: rest, name =>
    if p.name.toLower = name.toLower then (p, none) else getProjectByNameScan rest name

/-- Scan loop of `GetTeamByName` over the fetched team list. -/
def getTeamByNameScan : List Team → String → Team × Option String
  | [], name => (Team.zero, some ("could not find team with name " ++ name))
  | t :: rest, name =>
    if t.name.toLower = name.toLower then (t, none) else getTeamByNameScan rest name

/-- Scan loop of `GetNodeByLabel` over the fetched node list. -/
def getNodeByLabelScan : List Node → String → Node × Option String
  | [], label => (Node.zero, some ("could not find node with label " ++ label))
  | n :: rest, label =>
    if n.label.toLower = label.toLower then (n, none) else getNodeByLabelScan rest label

/-- Scan loop of `GetIssueByTitle` over the fetched issue list. -/
def getIssueByTitleScan : List Issue → String → Issue × Option String
  | [], title => (Issue.zero, some ("could not find issue with title " ++ title))
  | i :: rest, title =>
    if i.title.toLower = title.toLower then (i, none) else getIssueByTitleScan rest title

/-- Scan loop of `GetNoteByTitle` over the fetched note list. -/
def getNoteByTitleScan : List Note → String → Note × Option String
  | [], title => (Note.zero, some ("could not find note with title " ++ title))
  | nt :: rest, title =>
    if nt.title.toLower = title.toLower then (nt, none) else getNoteByTitleScan rest title

theorem scan_eq_find (field : α → String) (zero : α) (msg : String)
    (scan : List α → String → α × Option String)
    (hnil : ∀ q, scan [] q = (zero, some (msg ++ q)))
    (hcons : ∀ x rest q, scan (x :: rest) q
      = if (field x).toLower = q.toLower then (x, none) else scan rest q) :
    ∀ (l : List α) (q : String),
      scan l q
        = ((l.find? (fun x => decide ((field x).toLower = q.toLower))).map
            (fun x => (x, (none : Option String)))).getD (zero, some (msg ++ q)) := by
  intro l q
  induction l with
  | nil => simp [hnil, List.find?]
  | cons x rest ih =>
    by_cases h : (field x).toLower = q.toLower
    · rw [hcons, if_pos h, List.find?_cons_of_pos _ (by simpa using h)]
      rfl
    · rw [hcons, if_neg h, List.find?_cons_of_neg _ (by simpa using h), ih]

/-- C5: each of the five single-match lookups returns the first element in
list order whose relevant field equals the query under case-insensitive
exact comparison, and, when no element matches, the zero-value entity
together with an error naming the query. -/
theorem lookup_first_case_insensitive_match :
    (∀ (l : List Project) (q : String),
        getProjectByNameScan l q
          = ((l.find? (fun x => decide (x.name.toLower = q.toLower))).map
              (fun x => (x, (none : Option String)))).getD (Project.zero, some ("Could not find project " ++ q)))
    ∧ (∀ (l : List Team) (q : String),
        getTeamByNameScan l q
          = ((l.find? (fun x => decide (x.name.toLower = q.toLower))).map
              (fun x => (x, (none : Option String)))).getD (Team.zero, some ("could not find team with name " ++ q)))
    ∧ (∀ (l : List Node) (q : String),
        getNodeByLabelScan l q
          = ((l.find? (fun x => decide (x.label.toLower = q.toLower))).map
              (fun x => (x, (none : Option String)))).getD (Node.zero, some ("could not find node with label " ++ q)))
    ∧ (∀ (l : List Issue) (q : String),
        getIssueByTitleScan l q
          = ((l.find? (fun x => decide (x.title.toLower = q.toLower))).map
              (fun x => (x, (none : Option String)))).getD (Issue.zero, some ("could not find issue with title " ++ q)))
    ∧ (∀ (l : List Note) (q : String),
        getNoteByTitleScan l q
          = ((l.find? (fun x => decide (x.title.toLower = q.toLower))).map
              (fun x => (x, (none : Option String)))).getD (Note.zero, some ("could not find note with title " ++ q))) :=
  ⟨scan_eq_find (fun p : Project => p.name) Project.zero "Could not find project "
      getProjectByNameScan (fun _ => rfl) (fun _ _ _ => rfl),
   scan_eq_find (fun t : Team => t.name) Team.zero "could not find team with name "
      getTeamByNameScan (fun _ => rfl) (fun _ _ _ => rfl),
   scan_eq_find (fun n : Node => n.label) Node.zero "could not find node with label "
      getNodeByLabelScan (fun _ => rfl) (fun _ _ _ => rfl),
   scan_eq_find (fun i : Issue => i.title) Issue.zero "could not find issue with title "
      getIssueByTitleScan (fun _ => rfl) (fun _ _ _ => rfl),
   scan_eq_find (fun nt : Note => nt.title) Note.zero "could not find note with title "
      getNoteByTitleScan (fun _ => rfl) (fun _ _ _ => rfl)⟩

/-! ## C10: delete/update operations dereference wired back-references -/

/-- Resolution of the abstract pointer addresses: the heap of node and
project objects the back-references point into. -/
structure Env where
  nodeAt : Addr → Node
  projAt : Addr → Project

/-- Result of running one of the delete/update operations: either the
unconditional dereference of a nil back-reference (a Go nil-pointer panic
while building the request URL), or completion carrying the ids used in the
request (node id, entity id, project id) and the operation's Go return. -/
inductive OpResult (α : Type) where
  | nilPanic
  | done (request : Int × Int × Int) (result : α)
deriving DecidableEq

/-- `DeleteEvidence` (godradis.go lines 1346-1359): the request URL and the
project header dereference `evidence.Node` and `evidence.Node.Project`
before any nil check; on a 200 response the guarded local mutation
`evidence.Node.deleteEvidence(*evidence)` runs (`some node` in the result
records that the guard was taken and the node it mutated). -/
def deleteEvidenceOp (env : Env) (e : Evidence) (outcome : HttpOutcome Unit) :
    OpResult (Option Node × Option String) :=
  match e.node with
  | none => .nilPanic
  | some na =>
    match (env.nodeAt na).project with
    | none => .nilPanic
    | some pa =>
      let req := ((env.nodeAt na).id, e.id, (env.projAt pa).id)
      match outcome with
      | .transportErr msg => .done req (none, some msg)
      | .response status _ =>
        if status = statusOK then
          match e.node with
          | some na2 => .done req (some ((env.nodeAt na2).deleteEvidence e), none)
          | none => .done req (none, none)
        else .done req (none, some "could not delete evidence")

/-- `UpdateEvidenceFromText` (godradis.go lines 1296-1333): same
unconditional dereferences to build the request; no local graph guard. -/
def updateEvidenceFromTextOp (env : Env) (e : Evidence) (_content : String)
    (outcome : HttpOutcome Evidence) : OpResult (Evidence × Option String) :=
  match e.node with
  | none => .nilPanic
  | some na =>
    match (env.nodeAt na).project with
    | none => .nilPanic
    | some pa =>
      let req := ((env.nodeAt na).id, e.id, (env.projAt pa).id)
      match outcome with
      | .transportErr msg => .done req (e, some msg)
      | .response status decoded =>
        if status ≠ statusOK then .done req (e, some "could not update evidence")
        else
          match decoded with
          | .error msg => .done req (e, some msg)
          | .ok updated => .done req (updated, none)

/-- `DeleteNote` (godradis.go lines 1638-1651). -/
def deleteNoteOp (env : Env) (nt : Note) (outcome : HttpOutcome Unit) :
    OpResult (Option Node × Option String) :=
  match nt.node with
  | none => .nilPanic
  | some na =>
    match (env.nodeAt na).project with
    | none => .nilPanic
    | some pa =>
      let req := ((env.nodeAt na).id, nt.id, (env.projAt pa).id)
      match outcome with
      | .transportErr msg => .done req (none, some msg)
      | .response status _ =>
        if status = statusOK then
          match nt.node with
          | some na2 => .done req (some ((env.nodeAt na2).deleteNote nt), none)
          | none => .done req (none, none)
        else .done req (none, some "could not delete note")

/-- `UpdateNoteFromText` (godradis.go lines 1587-1625). -/
def updateNoteFromTextOp (env : Env) (nt : Note) (_text : String)
    (outcome : HttpOutcome Note) : OpResult (Note × Option String) :=
  match nt.node with
  | none => .nilPanic
  | some na =>
    match (env.nodeAt na).project with
    | none => .nilPanic
    | some pa =>
      let req := ((env.nodeAt na).id, nt.id, (env.projAt pa).id)
      match outcome with
      | .transportErr msg => .done req (nt, some msg)
      | .response status decoded =>
        if status ≠ statusOK then .done req (nt, some "could not update note")
        else
          match decoded with
          | .error msg => .done req (nt, some msg)
          | .ok updated => .done req (updated, none)

/-- C10: the four operations dereference the entity's `Node` back-reference
and its node's `Project` back-reference unconditionally, before any nil
check, so a nil back-reference panics for every transport outcome; under
the precondition that both are non-nil no nil dereference occurs, and for
the delete operations the later `if Node != nil` guard before the local
mutation is always taken on a 200 response (the mutation runs). -/
theorem delete_update_require_wired_node :
    ∀ (env : Env) (e : Evidence) (nt : Note) (content : String)
      (oDE : HttpOutcome Unit) (oUE : HttpOutcome Evidence)
      (oDN : HttpOutcome Unit) (oUN : HttpOutcome Note),
      (e.node = none →
        deleteEvidenceOp env e oDE = .nilPanic
        ∧ updateEvidenceFromTextOp env e content oUE = .nilPanic)
      ∧ (nt.node = none →
        deleteNoteOp env nt oDN = .nilPanic
        ∧ updateNoteFromTextOp env nt content oUN = .nilPanic)
      ∧ (∀ na, e.node = some na → (env.nodeAt na).project = none →
          deleteEvidenceOp env e oDE = .nilPanic
          ∧ updateEvidenceFromTextOp env e content oUE = .nilPanic)
      ∧ (∀ na, nt.node = some na → (env.nodeAt na).project = none →
          deleteNoteOp env nt oDN = .nilPanic
          ∧ updateNoteFromTextOp env nt content oUN = .nilPanic)
      ∧ (∀ na pa, e.node = some na → (env.nodeAt na).project = some pa →
          deleteEvidenceOp env e oDE ≠ .nilPanic
          ∧ updateEvidenceFromTextOp env e content oUE ≠ .nilPanic
          ∧ deleteEvidenceOp env e (.response statusOK (.ok ()))
              = .done ((env.nodeAt na).id, e.id, (env.projAt pa).id)
                  (some ((env.nodeAt na).deleteEvidence e), none))
      ∧ (∀ na pa, nt.node = some na → (env.nodeAt na).project = some pa →
          deleteNoteOp env nt oDN ≠ .nilPanic
          ∧ updateNoteFromTextOp env nt content oUN ≠ .nilPanic
          ∧ deleteNoteOp env nt (.response statusOK (.ok ()))
              = .done ((env.nodeAt na).id, nt.id, (env.projAt pa).id)
                  (some ((env.nodeAt na).deleteNote nt), none)) := by
  intro env e nt content oDE oUE oDN oUN
  refine ⟨?_, ?_, ?_, ?_, ?_, ?_⟩
  · intro h
    exact ⟨by simp [deleteEvidenceOp, h], by simp [updateEvidenceFromTextOp, h]⟩
  · intro h
    exact ⟨by simp [deleteNoteOp, h], by simp [updateNoteFromTextOp, h]⟩
  · intro na h1 h2
    exact ⟨by simp [deleteEvidenceOp, h1, h2], by simp [updateEvidenceFromTextOp, h1, h2]⟩
  · intro na h1 h2
    exact ⟨by simp [deleteNoteOp, h1, h2], by simp [updateNoteFromTextOp, h1, h2]⟩
  · intro na pa h1 h2
    refine ⟨?_, ?_, by simp [deleteEvidenceOp, h1, h2, statusOK]⟩
    · cases oDE with
      | transportErr msg => simp [deleteEvidenceOp, h1, h2]
      | response status decoded =>
        by_cases hs : status = statusOK <;> simp [deleteEvidenceOp, h1, h2, hs]
    · cases oUE with
      | transportErr msg => simp [updateEvidenceFromTextOp, h1, h2]
      | response status decoded =>
        by_cases hs : status = statusOK
        · cases decoded <;> simp [updateEvidenceFromTextOp, h1, h2, hs]
        · simp [updateEvidenceFromTextOp, h1, h2, hs]
  · intro na pa h1 h2
    refine ⟨?_, ?_, by simp [deleteNoteOp, h1, h2, statusOK]⟩
    · cases oDN with
      | transportErr msg => simp [deleteNoteOp, h1, h2]
      | response status decoded =>
        by_cases hs : status = statusOK <;> simp [deleteNoteOp, h1, h2, hs]
    · cases oUN with
      | transportErr msg => simp [updateNoteFromTextOp, h1, h2]
      | response status decoded =>
        by_cases hs : status = statusOK
        · cases decoded <;> simp [updateNoteFromTextOp, h1, h2, hs]
        · simp [updateNoteFromTextOp, h1, h2, hs]

/-- Concrete environment for the `delete_update_require_wired_node`
witness: every node address resolves to `node6` wired to project address 0. -/
def env10 : Env := ⟨fun _ => { node6 with project := some 0 }, fun _ => Project.zero⟩

/-- Concrete wired evidence for the witness. -/
def ev10 : Evidence := { Evidence.zero with id := 2, node := some 0 }

/-- Concrete wired note for the witness. -/
def nt10 : Note := { Note.zero with id := 2, node := some 0 }

/-- Witness for `delete_update_require_wired_node`: a nil back-reference
panics, and a wired one completes with the guarded mutation on 200. -/
theorem delete_update_require_wired_node_witness :
    deleteEvidenceOp env10 Evidence.zero (.transportErr "x") = .nilPanic
    ∧ deleteEvidenceOp env10 ev10 (.response statusOK (.ok ()))
        = .done ((env10.nodeAt 0).id, ev10.id, (env10.projAt 0).id)
            (some ((env10.nodeAt 0).deleteEvidence ev10), none) :=
  ⟨((delete_update_require_wired_node env10 Evidence.zero nt10 "" (.transportErr "x")
      (.transportErr "x") (.transportErr "x") (.transportErr "x")).1 rfl).1,
   ((delete_update_require_wired_node env10 ev10 nt10 "" (.transportErr "x")
      (.transportErr "x") (.transportErr "x") (.transportErr "x")).2.2.2.2.1 0 0
      rfl rfl).2.2⟩

/-! ## C8: `CopyFields` produces an independent clone

Go's `orderedmap.OrderedMap` values share their backing map on assignment,
so independence of the copy is a heap property.  `OMStore` models a heap of
ordered maps addressed by `Addr`; `orderedmap.New()` allocates a fresh
address.  `copyFields` is the common body of `Evidence.CopyFields`,
`Note.CopyFields` and `IssueLib.CopyFields` (the three methods are
textually identical over their `Fields` map). -/

/-- Heap of ordered maps; an address is an index, allocation appends. -/
structure OMStore where
  heap : List OrderedMap
deriving DecidableEq

/-- Read the map at an address (dangling addresses read as empty). -/
def OMStore.getMap (s : OMStore) (a : Addr) : OrderedMap :=
  s.heap.getD a OrderedMap.empty

/-- Overwrite the map at an address. -/
def OMStore.setMap (s : OMStore) (a : Addr) (m : OrderedMap) : OMStore :=
  ⟨s.heap.set a m⟩

/-- `orderedmap.New()`: allocate a fresh empty map, returning its address. -/
def omNew (s : OMStore) : OMStore × Addr :=
  (⟨s.heap ++ [OrderedMap.empty]⟩, s.heap.length)

/-- `Set` through an address. -/
def omSet (s : OMStore) (a : Addr) (k v : String) : OMStore :=
  s.setMap a ((s.getMap a).Set k v)

/-- `Get` through an address. -/
def omGet (s : OMStore) (a : Addr) (k : String) : Option String :=
  (s.getMap a).Get k

/-- `Keys()` through an address. -/
def omKeys (s : OMStore) (a : Addr) : List String :=
  (s.getMap a).keys

/-- The copy loop of `CopyFields`: for each key of the source map (read
from address `a`), `Get` it and, when present, `Set` it on the fresh map at
address `b`. -/
def copyLoop (a b : Addr) : List String → OMStore → OMStore
  | [], st => st
  | k :: ks, st =>
    copyLoop a b ks
      (match omGet st a k with
       | some v => omSet st b k v
       | none => st)

/-- `CopyFields` (evidence.go / note.go / issuelib.go): allocate a fresh
map, then copy every key of the receiver's `Fields` (at address `a`) into
it, returning the fresh address. -/
def copyFields (s : OMStore) (a : Addr) : OMStore × Addr :=
  (copyLoop a (omNew s).2 (omKeys (omNew s).1 a) (omNew s).1, (omNew s).2)

/-- Value-level shadow of `copyLoop`: the map accumulating at the fresh
address. -/
def cloneLoop (src : OrderedMap) : List String → OrderedMap → OrderedMap
  | [], acc => acc
  | k :: ks, acc =>
    cloneLoop src ks
      (match src.Get k with
       | some v => acc.Set k v
       | none => acc)

theorem getD_set_ne (d m : α) :
    ∀ (l : List α) (i j : Nat), i ≠ j → (l.set i m).getD j d = l.getD j d
  | [], _, _, _ => rfl
  | _ :: _, 0, 0, h => absurd rfl h
  | _ :: _, 0, _ + 1, _ => rfl
  | _ :: _, _ + 1, 0, _ => rfl
  | _ :: xs, i + 1, j + 1, h =>
    getD_set_ne d m xs i j (fun hh => h (by rw [hh]))

theorem getD_set_self (d m : α) :
    ∀ (l : List α) (i : Nat), i < l.length → (l.set i m).getD i d = m
  | _ :: _, 0, _ => rfl
  | _ :: xs, i + 1, h => getD_set_self d m xs i (Nat.lt_of_succ_lt_succ h)

theorem getD_append_left (d : α) :
    ∀ (l1 : List α) (l2 : List α) (i : Nat), i < l1.length →
      (l1 ++ l2).getD i d = l1.getD i d
  | _ :: _, _, 0, _ => rfl
  | _ :: xs, l2, i + 1, h => getD_append_left d xs l2 i (Nat.lt_of_succ_lt_succ h)

theorem getD_append_at_length (d x : α) :
    ∀ l1 : List α, (l1 ++ [x]).getD l1.length d = x
  | [] => rfl
  | _ :: xs => getD_append_at_length d x xs

theorem getMap_setMap_ne (s : OMStore) (a b : Addr) (m : OrderedMap) (h : b ≠ a) :
    (s.setMap b m).getMap a = s.getMap a :=
  getD_set_ne _ m s.heap b a h

theorem getMap_omSet_ne (s : OMStore) (a b : Addr) (k v : String) (h : b ≠ a) :
    (omSet s b k v).getMap a = s.getMap a :=
  getMap_setMap_ne s a b _ h

theorem getMap_omSet_self (s : OMStore) (b : Addr) (k v : String)
    (h : b < s.heap.length) : (omSet s b k v).getMap b = (s.getMap b).Set k v :=
  getD_set_self _ _ s.heap b h

theorem omSet_heap_length (s : OMStore) (b : Addr) (k v : String) :
    (omSet s b k v).heap.length = s.heap.length := by
  simp [omSet, OMStore.setMap]

theorem copyLoop_getMap (a b : Addr) (hab : b ≠ a) :
    ∀ (ks : List String) (st : OMStore), b < st.heap.length →
      (copyLoop a b ks st).getMap a = st.getMap a
      ∧ (copyLoop a b ks st).getMap b = cloneLoop (st.getMap a) ks (st.getMap b) := by
  intro ks
  induction ks with
  | nil => intro st _; exact ⟨rfl, rfl⟩
  | cons k ks ih =>
    intro st hb
    cases hk : omGet st a k with
    | none =>
      have hget : (st.getMap a).Get k = none := hk
      simp only [copyLoop, cloneLoop, hk, hget]
      exact ih st hb
    | some v =>
      have hget : (st.getMap a).Get k = some v := hk
      simp only [copyLoop, cloneLoop, hk, hget]
      have hb2 : b < (omSet st b k v).heap.length := by
        rw [omSet_heap_length]; exact hb
      have hrec := ih (omSet st b k v) hb2
      rw [hrec.1, hrec.2, getMap_omSet_ne st a b k v hab,
        getMap_omSet_self st b k v hb]
      exact ⟨rfl, rfl⟩

theorem lookupA_append_right (l1 l2 : List (String × String)) (q : String)
    (h : lookupA l1 q = none) : lookupA (l1 ++ l2) q = lookupA l2 q := by
  induction l1 with
  | nil => rfl
  | cons p rest ih =>
    rcases p with ⟨k, v⟩
    simp only [lookupA] at h ⊢
    by_cases hk : k = q
    · rw [if_pos hk] at h; exact absurd h (by simp)
    · rw [if_neg hk] at h ⊢
      exact ih h

theorem setA_absent (k v : String) :
    ∀ vs : List (String × String), lookupA vs k = none → setA vs k v = vs ++ [(k, v)] := by
  intro vs
  induction vs with
  | nil => intro _; rfl
  | cons p rest ih =>
    rcases p with ⟨k0, v0⟩
    intro h
    simp only [lookupA] at h
    by_cases hk : k0 = k
    · rw [if_pos hk] at h; exact absurd h (by simp)
    · rw [if_neg hk] at h
      simp only [setA, if_neg hk, List.cons_append]
      rw [ih h]

theorem set_absent (m : OrderedMap) (k v : String) (h : lookupA m.values k = none) :
    m.Set k v = ⟨m.keys ++ [k], m.values ++ [(k, v)]⟩ := by
  simp only [OrderedMap.Set, h, Option.isSome_none, Bool.false_eq_true, if_false,
    setA_absent k v m.values h]

theorem lookupA_pairs_self :
    ∀ vs : List (String × String), (vs.map Prod.fst).Nodup →
      ∀ p ∈ vs, lookupA vs p.1 = some p.2 := by
  intro vs
  induction vs with
  | nil => intro _ p hp; exact absurd hp (List.not_mem_nil p)
  | cons q rest ih =>
    rcases q with ⟨k, v⟩
    intro hnd p hp
    simp only [List.map_cons, List.nodup_cons] at hnd
    rcases List.mem_cons.1 hp with heq | hmem
    · rw [heq]; simp [lookupA]
    · have hne : k ≠ p.1 := by
        intro hk
        exact hnd.1 (hk ▸ List.mem_map_of_mem Prod.fst hmem)
      simp only [lookupA, if_neg hne]
      exact ih hnd.2 p hmem

theorem cloneLoop_rebuild (src : OrderedMap) :
    ∀ (vs : List (String × String)) (acc : OrderedMap),
      (vs.map Prod.fst).Nodup →
      (∀ p ∈ vs, lookupA acc.values p.1 = none) →
      (∀ p ∈ vs, src.Get p.1 = some p.2) →
      cloneLoop src (vs.map Prod.fst) acc
        = ⟨acc.keys ++ vs.map Prod.fst, acc.values ++ vs⟩ := by
  intro vs
  induction vs with
  | nil =>
    intro acc _ _ _
    cases acc
    simp [cloneLoop]
  | cons p rest ih =>
    rcases p with ⟨k, v⟩
    intro acc hnd habs hsrc
    simp only [List.map_cons, List.nodup_cons] at hnd
    have hsk : src.Get k = some v := hsrc (k, v) (List.mem_cons_self _ _)
    have hak : lookupA acc.values k = none := habs (k, v) (List.mem_cons_self _ _)
    simp only [List.map_cons, cloneLoop, hsk]
    rw [set_absent acc k v hak]
    rw [ih ⟨acc.keys ++ [k], acc.values ++ [(k, v)]⟩ hnd.2 ?_ ?_]
    · simp
    · intro p hp
      have h1 : lookupA acc.values p.1 = none := habs p (List.mem_cons_of_mem _ hp)
      have hne : k ≠ p.1 := by
        intro hk
        exact hnd.1 (hk ▸ List.mem_map_of_mem Prod.fst hp)
      rw [lookupA_append_right _ _ _ h1]
      simp [lookupA, if_neg hne]
    · intro p hp
      exact hsrc p (List.mem_cons_of_mem _ hp)

theorem cloneLoop_self (src : OrderedMap) (h : src.WellFormed) :
    cloneLoop src src.keys OrderedMap.empty = src := by
  have hkeys : src.keys = src.values.map Prod.fst := h.1.symm
  have hnd : (src.values.map Prod.fst).Nodup := h.1.symm ▸ h.2
  rw [hkeys, cloneLoop_rebuild src src.values OrderedMap.empty hnd
    (fun p _ => rfl)
    (fun p hp => lookupA_pairs_self src.values hnd p hp)]
  cases src
  simp only [OrderedMap.empty, List.nil_append]
  rw [← hkeys]

/-- C8: `CopyFields` on a live map (valid address, well-formed contents)
allocates a genuinely fresh map: the clone's keys and lookups coincide with
the original's at clone time, the original is untouched by the cloning, and
afterwards a `Set` on the clone never changes any lookup on the original,
nor a `Set` on the original any lookup on the clone. -/
theorem copyFields_independent_clone :
    ∀ (s : OMStore) (a : Addr),
      a < s.heap.length →
      (s.getMap a).WellFormed →
      (copyFields s a).2 ≠ a
      ∧ omKeys (copyFields s a).1 (copyFields s a).2 = omKeys s a
      ∧ (∀ k, omGet (copyFields s a).1 (copyFields s a).2 k = omGet s a k)
      ∧ (∀ k, omGet (copyFields s a).1 a k = omGet s a k)
      ∧ (∀ k v q, omGet (omSet (copyFields s a).1 (copyFields s a).2 k v) a q
          = omGet (copyFields s a).1 a q)
      ∧ (∀ k v q, omGet (omSet (copyFields s a).1 a k v) (copyFields s a).2 q
          = omGet (copyFields s a).1 (copyFields s a).2 q) := by
  intro s a ha hwf
  have hba : s.heap.length ≠ a := Nat.ne_of_gt ha
  have hb1 : s.heap.length < (omNew s).1.heap.length := by
    simp [omNew]
  have hs1a : (omNew s).1.getMap a = s.getMap a :=
    getD_append_left _ s.heap [OrderedMap.empty] a ha
  have hs1b : (omNew s).1.getMap s.heap.length = OrderedMap.empty :=
    getD_append_at_length _ _ s.heap
  have hkeys : omKeys (omNew s).1 a = (s.getMap a).keys := by
    rw [omKeys, hs1a]
  have hloop := copyLoop_getMap a s.heap.length hba (omKeys (omNew s).1 a) (omNew s).1 hb1
  have hcf1 : (copyFields s a).1 = copyLoop a s.heap.length (omKeys (omNew s).1 a) (omNew s).1 :=
    rfl
  have hcf2 : (copyFields s a).2 = s.heap.length := rfl
  have hmapa : (copyFields s a).1.getMap a = s.getMap a := by
    rw [hcf1, hloop.1, hs1a]
  have hmapb : (copyFields s a).1.getMap s.heap.length = s.getMap a := by
    rw [hcf1, hloop.2, hs1a, hs1b, hkeys, cloneLoop_self _ hwf]
  refine ⟨by rw [hcf2]; exact hba, ?_, ?_, ?_, ?_, ?_⟩
  · rw [omKeys, omKeys, hcf2, hmapb]
  · intro k; rw [omGet, omGet, hcf2, hmapb]
  · intro k; rw [omGet, omGet, hmapa]
  · intro k v q
    rw [omGet, omGet, hcf2, getMap_omSet_ne _ a s.heap.length k v hba]
  · intro k v q
    rw [omGet, omGet, hcf2,
      getMap_omSet_ne _ s.heap.length a k v (fun h => hba h.symm)]

/-- Concrete one-map heap for the `copyFields_independent_clone` witness. -/
def store8 : OMStore := ⟨[⟨["k"], [("k", "v")]⟩]⟩

/-- Witness for `copyFields_independent_clone`: cloning the map at address
0 gives equal lookups, and a later `Set` on the clone leaves the original's
lookup untouched. -/
theorem copyFields_independent_clone_witness :
    omGet (copyFields store8 0).1 (copyFields store8 0).2 "k" = omGet store8 0 "k"
    ∧ omGet (omSet (copyFields store8 0).1 (copyFields store8 0).2 "k" "w") 0 "k"
        = omGet (copyFields store8 0).1 0 "k" :=
  ⟨(copyFields_independent_clone store8 0 (by decide) (by decide)).2.2.1 "k",
   (copyFields_independent_clone store8 0 (by decide) (by decide)).2.2.2.2.1 "k" "w" "k"⟩

end Godradis
